import Mathlib

/-!
Shallow embedding of the `IndustrialBuzzer` non-blocking pattern sequencer
from `examples/Tft_Buzzer_Buttons/Tft_Buzzer_Buttons.ino` (RADION repository).

The sequencer state is the private field block of the C++ class; the output
sink is observed as the list of `ledcWriteTone` / `ledcWrite` commands a call
emits.  `millis()` arithmetic is `unsigned long` (32-bit) subtraction, modelled
by `sub32`.  Out-of-bounds reads of the pattern array are modelled by `Option`:
a method returns `none` exactly when the C++ code would index past the end of
`currentPattern`.
-/

namespace Buzzer

/-- `struct BuzzerNote { uint16_t frequency; uint16_t duration; uint8_t volume; }`. -/
structure BuzzerNote where
  frequency : Nat
  duration : Nat
  volume : Nat
deriving DecidableEq

/-- One command observed by the output sink: `ledcWriteTone(channel, f)`
    or `ledcWrite(channel, d)`. -/
inductive SinkCmd where
  | tone (freq : Nat) : SinkCmd
  | duty (level : Nat) : SinkCmd
deriving DecidableEq

/-- The mutable fields of `IndustrialBuzzer`:
    `currentPattern`, `patternIndex`, `noteStartTime`, `isPlaying`, `repeat`
    (called `repeatFlag` here since `repeat` is a Lean keyword) and
    `currentName`.  `patternIndex` is a `uint8_t` in the source; it is modelled
    as a `Nat` with the mod-256 wrap applied explicitly at the `patternIndex++`
    increment inside `update`, so every representable program state has
    `patternIndex < 256`. -/
structure BuzzerState where
  currentPattern : Option (List BuzzerNote)
  patternIndex : Nat
  noteStartTime : Nat
  isPlaying : Bool
  repeatFlag : Bool
  currentName : String
deriving DecidableEq

/-- The constructor: all fields zeroed, `currentPattern = nullptr`,
    `isPlaying = false`, `repeat = false`, `currentName = ""`. -/
def initState : BuzzerState :=
  ⟨none, 0, 0, false, false, ""⟩

/-- 32-bit unsigned subtraction, the meaning of `millis() - noteStartTime`
    on `unsigned long` values. -/
def sub32 (a b : Nat) : Nat :=
  (a % 2 ^ 32 + (2 ^ 32 - b % 2 ^ 32)) % 2 ^ 32

/-- Body of `playCurrentNote()` for a given note:
    `if (note->frequency > 0) { ledcWriteTone(channel, f); ledcWrite(channel, volume); }
     else { ledcWrite(channel, 0); }`. -/
def playNote (note : BuzzerNote) : List SinkCmd :=
  if note.frequency > 0 then
    [SinkCmd.tone note.frequency, SinkCmd.duty note.volume]
  else
    [SinkCmd.duty 0]

/-- The end-of-pattern test in `update()`:
    `note->frequency == 0 && note->duration == 0` (the `volume` field is not
    examined). -/
def isEndMarker (note : BuzzerNote) : Bool :=
  note.frequency == 0 && note.duration == 0

/-- `playPattern(pattern, name, repeatPattern)` at time `now = millis()`:
    overwrites every playback field and immediately calls `playCurrentNote()`,
    which reads `currentPattern[0]`; `none` models the out-of-bounds read on an
    empty pattern.  The prior state `s` is ignored entirely (preemption). -/
def playPattern (s : BuzzerState) (pattern : List BuzzerNote) (name : String)
    (repeatPattern : Bool) (now : Nat) : Option (BuzzerState × List SinkCmd) :=
  match pattern[0]? with
  | none => none
  | some n0 =>
      some (⟨some pattern, 0, now, true, repeatPattern, name⟩, playNote n0)

/-- `stop()`: `isPlaying = false; repeat = false; currentName = "";
    ledcWriteTone(channel, 0); ledcWrite(channel, 0);`.
    The pattern pointer, index and start time are left untouched. -/
def stop (s : BuzzerState) : BuzzerState × List SinkCmd :=
  ({ s with isPlaying := false, repeatFlag := false, currentName := "" },
   [SinkCmd.tone 0, SinkCmd.duty 0])

/-- `isActive()`: returns `isPlaying`. -/
def isActive (s : BuzzerState) : Bool :=
  s.isPlaying

/-- `update()` at time `now = millis()`.  Mirrors the C++ body exactly:
    early return when idle; a single `if` (not a loop) on
    `millis() - noteStartTime >= note->duration`; on crossing, increment
    `patternIndex` — a `uint8_t`, so the store wraps mod 256 (255 → 0) — read
    the note at the wrapped index (OOB modelled by `none`), test the end
    marker; on end marker either restart at index 0 (when `repeat`) or call
    `stop()` and return; otherwise/after restart set `noteStartTime = now` and
    emit the (new) current note. -/
def update (s : BuzzerState) (now : Nat) : Option (BuzzerState × List SinkCmd) :=
  match s.currentPattern with
  | none => some (s, [])
  | some pat =>
    if s.isPlaying then
      match pat[s.patternIndex]? with
      | none => none
      | some note =>
        if note.duration ≤ sub32 now s.noteStartTime then
          match pat[(s.patternIndex + 1) % 256]? with
          | none => none
          | some note2 =>
            if isEndMarker note2 then
              if s.repeatFlag then
                match pat[0]? with
                | none => none
                | some n0 =>
                    some ({ s with patternIndex := 0, noteStartTime := now },
                          playNote n0)
              else
                some (stop { s with patternIndex := (s.patternIndex + 1) % 256 })
            else
              some ({ s with patternIndex := (s.patternIndex + 1) % 256,
                             noteStartTime := now },
                    playNote note2)
        else
          some (s, [])
    else
      some (s, [])

/-- A sequence of `update` calls at the given timestamps, collecting all sink
    commands in order; `none` as soon as any call performs an out-of-bounds
    read. -/
def pollSeq (s : BuzzerState) (ts : List Nat) : Option (BuzzerState × List SinkCmd) :=
  match ts with
  | [] => some (s, [])
  | t :: rest =>
    match update s t with
    | none => none
    | some (s2, cmds) =>
      match pollSeq s2 rest with
      | none => none
      | some (s3, more) => some (s3, cmds ++ more)

/-- Like `pollSeq`, but each emitted sink command is tagged with the timestamp
    of the `update` call that produced it. -/
def pollTimes (s : BuzzerState) (ts : List Nat) :
    Option (BuzzerState × List (Nat × SinkCmd)) :=
  match ts with
  | [] => some (s, [])
  | t :: rest =>
    match update s t with
    | none => none
    | some (s2, cmds) =>
      match pollTimes s2 rest with
      | none => none
      | some (s3, more) => some (s3, cmds.map (fun c => (t, c)) ++ more)

/-- Sum of the `duration` fields of a list of steps. -/
def durTotal : List BuzzerNote → Nat
  | [] => 0
  | n :: rest => n.duration + durTotal rest

/-- Concatenated emissions of a list of steps. -/
def emitAll : List BuzzerNote → List SinkCmd
  | [] => []
  | n :: rest => playNote n ++ emitAll rest

/-- `n` copies of a command list, concatenated. -/
def repeatCmds : Nat → List SinkCmd → List SinkCmd
  | 0, _ => []
  | n + 1, c => c ++ repeatCmds n c

/-- Poll timestamps sitting exactly on the step boundaries of `steps`,
    starting from step start time `T`. -/
def boundaryTimes (T : Nat) : List BuzzerNote → List Nat
  | [] => []
  | n :: rest => (T + n.duration) :: boundaryTimes (T + n.duration) rest

/-- `n` consecutive boundary-aligned polling cycles of `steps`, the first
    starting at step start time `T`. -/
def cycleSchedule (steps : List BuzzerNote) : Nat → Nat → List Nat
  | 0, _ => []
  | n + 1, T => boundaryTimes T steps ++ cycleSchedule steps n (T + durTotal steps)

/-- One poll per remaining step: each timestamp crosses the current step's
    duration boundary, timestamps stay below `2^32` and are non-decreasing. -/
def driveOK (T : Nat) : List BuzzerNote → List Nat → Bool
  | [], [] => true
  | n :: rest, t :: more =>
      decide (T + n.duration ≤ t) && decide (t < 2 ^ 32) && driveOK t rest more
  | _, _ => false

/-- Example pattern in the shape of the source's tables: two tone steps and
    the `{0, 0, 0}` terminator. -/
def exPat : List BuzzerNote :=
  [⟨500, 100, 10⟩, ⟨900, 100, 10⟩, ⟨0, 0, 0⟩]

/-- State immediately after `playPattern(exPat, "ex", false)` at time 0. -/
def exStart : BuzzerState :=
  ⟨some exPat, 0, 0, true, false, "ex"⟩

end Buzzer

namespace Buzzer

/-! ### General lemmas about the embedding -/

lemma sub32_eq_sub {T t : Nat} (h1 : T ≤ t) (h2 : t < 2 ^ 32) :
    sub32 t T = t - T := by
  have hT : T < 2 ^ 32 := lt_of_le_of_lt h1 h2
  unfold sub32
  rw [Nat.mod_eq_of_lt h2, Nat.mod_eq_of_lt hT]
  have h32 : (2 : Nat) ^ 32 = 4294967296 := by norm_num
  rw [h32] at h2 hT ⊢
  omega

lemma sub32_wrap {T t : Nat} (h1 : t < T) (h2 : T < 2 ^ 32) :
    sub32 t T = t % 2 ^ 32 + 2 ^ 32 - T := by
  unfold sub32
  rw [Nat.mod_eq_of_lt h2]
  have h32 : (2 : Nat) ^ 32 = 4294967296 := by norm_num
  rw [h32] at h2 ⊢
  omega

lemma update_idle (s : BuzzerState) (now : Nat) (h : s.isPlaying = false) :
    update s now = some (s, []) := by
  unfold update
  cases hc : s.currentPattern with
  | none => rfl
  | some pat => simp [h]

lemma pollSeq_idle (s : BuzzerState) (ts : List Nat) (h : s.isPlaying = false) :
    pollSeq s ts = some (s, []) := by
  induction ts with
  | nil => rfl
  | cons t rest ih =>
      unfold pollSeq
      simp [update_idle s t h, ih]

lemma update_noelapse (s : BuzzerState) (pat : List BuzzerNote) (now : Nat)
    (note : BuzzerNote)
    (hpat : s.currentPattern = some pat) (hplay : s.isPlaying = true)
    (hcur : pat[s.patternIndex]? = some note)
    (hdur : sub32 now s.noteStartTime < note.duration) :
    update s now = some (s, []) := by
  unfold update
  rw [hpat]
  simp [hplay, hcur, Nat.not_le.mpr hdur]

lemma update_oob (s : BuzzerState) (pat : List BuzzerNote) (now : Nat)
    (note : BuzzerNote)
    (hpat : s.currentPattern = some pat) (hplay : s.isPlaying = true)
    (hcur : pat[s.patternIndex]? = some note)
    (hdur : note.duration ≤ sub32 now s.noteStartTime)
    (hnext : pat[(s.patternIndex + 1) % 256]? = none) :
    update s now = none := by
  unfold update
  rw [hpat]
  simp [hplay, hcur, hdur, hnext]

lemma update_advance (s : BuzzerState) (pat : List BuzzerNote) (now : Nat)
    (note note2 : BuzzerNote)
    (hpat : s.currentPattern = some pat) (hplay : s.isPlaying = true)
    (hcur : pat[s.patternIndex]? = some note)
    (hdur : note.duration ≤ sub32 now s.noteStartTime)
    (hnext : pat[(s.patternIndex + 1) % 256]? = some note2)
    (hmark : isEndMarker note2 = false) :
    update s now =
      some ({ s with patternIndex := (s.patternIndex + 1) % 256,
                     noteStartTime := now },
            playNote note2) := by
  unfold update
  rw [hpat]
  simp [hplay, hcur, hdur, hnext, hmark]

lemma update_stopAtEnd (s : BuzzerState) (pat : List BuzzerNote) (now : Nat)
    (note note2 : BuzzerNote)
    (hpat : s.currentPattern = some pat) (hplay : s.isPlaying = true)
    (hrep : s.repeatFlag = false)
    (hcur : pat[s.patternIndex]? = some note)
    (hdur : note.duration ≤ sub32 now s.noteStartTime)
    (hnext : pat[(s.patternIndex + 1) % 256]? = some note2)
    (hmark : isEndMarker note2 = true) :
    update s now =
      some (stop { s with patternIndex := (s.patternIndex + 1) % 256 }) := by
  unfold update
  rw [hpat]
  simp [hplay, hcur, hdur, hnext, hmark, hrep]

lemma update_wrap (s : BuzzerState) (pat : List BuzzerNote) (now : Nat)
    (note note2 n0 : BuzzerNote)
    (hpat : s.currentPattern = some pat) (hplay : s.isPlaying = true)
    (hrep : s.repeatFlag = true)
    (hcur : pat[s.patternIndex]? = some note)
    (hdur : note.duration ≤ sub32 now s.noteStartTime)
    (hnext : pat[(s.patternIndex + 1) % 256]? = some note2)
    (hmark : isEndMarker note2 = true)
    (h0 : pat[0]? = some n0) :
    update s now =
      some ({ s with patternIndex := 0, noteStartTime := now }, playNote n0) := by
  unfold update
  rw [hpat]
  simp [hplay, hcur, hdur, hnext, hmark, hrep, h0]

end Buzzer

namespace Buzzer

/-! ### Claim theorems: start, stop, emission, idleness -/

/-- Claim C6 (confirmed): `playPattern` sets the active pattern, index 0,
    start time `now` and the looping flag, and synchronously emits step 0's
    output within the call itself; the result is independent of the prior
    state, so `start(A)` immediately followed by `start(B)` leaves exactly the
    state and emission of `start(B)` — no trace of `A` remains. -/
theorem C6_start (s : BuzzerState) (pattern : List BuzzerNote) (name : String)
    (repeatPattern : Bool) (now : Nat) (n0 : BuzzerNote)
    (h0 : pattern[0]? = some n0) :
    playPattern s pattern name repeatPattern now =
      some (⟨some pattern, 0, now, true, repeatPattern, name⟩, playNote n0) ∧
    ∀ sA : BuzzerState,
      playPattern sA pattern name repeatPattern now =
        playPattern s pattern name repeatPattern now := by
  constructor
  · unfold playPattern
    rw [h0]
  · intro sA
    rfl

/-- Witness for C6 at a concrete input. -/
theorem C6_witness :
    exPat[0]? = some ⟨500, 100, 10⟩ ∧
    playPattern initState exPat "ex" false 0 =
      some (⟨some exPat, 0, 0, true, false, "ex"⟩, playNote ⟨500, 100, 10⟩) := by
  refine ⟨rfl, ?_⟩
  exact (C6_start initState exPat "ex" false 0 ⟨500, 100, 10⟩ rfl).1

/-- Claim C7 (confirmed): `stop` makes the sequencer idle, clears the looping
    flag and emits the silence commands; a second `stop` reproduces exactly the
    same state and the same emission, so `stop` is idempotent on the observable
    state, and stopping while idle changes nothing besides re-emitting
    silence. -/
theorem C7_stop (s : BuzzerState) :
    stop s = ({ s with isPlaying := false, repeatFlag := false,
                       currentName := "" },
              [SinkCmd.tone 0, SinkCmd.duty 0]) ∧
    isActive (stop s).1 = false ∧
    stop (stop s).1 = stop s := by
  cases s
  exact ⟨rfl, rfl, rfl⟩

/-- Claim C10 (confirmed): `playCurrentNote` emits only `ledcWrite(channel, 0)`
    when the step's frequency is 0 (the tone frequency is not rewritten and the
    volume field is ignored), and emits the tone frequency followed by the
    step's volume when the frequency is strictly positive. -/
theorem C10_playNote (note : BuzzerNote) :
    (note.frequency = 0 → playNote note = [SinkCmd.duty 0]) ∧
    (0 < note.frequency →
      playNote note = [SinkCmd.tone note.frequency, SinkCmd.duty note.volume]) := by
  constructor
  · intro h
    simp [playNote, h]
  · intro h
    simp [playNote, h]

/-- Witness for C10 at concrete rest and tone steps. -/
theorem C10_witness :
    playNote ⟨0, 100, 5⟩ = [SinkCmd.duty 0] ∧
    playNote ⟨500, 100, 5⟩ = [SinkCmd.tone 500, SinkCmd.duty 5] :=
  ⟨(C10_playNote ⟨0, 100, 5⟩).1 rfl, (C10_playNote ⟨500, 100, 5⟩).2 (by decide)⟩

/-- Counterexample for claim C9: `stop` does not modify only the `isPlaying`
    and `repeat` flags — it also clears `currentName` (source: the
    `currentName = ""` assignment inside `stop()`). -/
theorem C9_counterexample :
    (stop ⟨some exPat, 2, 50, true, true, "Warning"⟩).1.currentName = "" ∧
    ("" : String) ≠ "Warning" :=
  ⟨rfl, by decide⟩

/-- Claim C9 (corrected): an idle `update` call is a complete no-op (state
    unchanged, nothing emitted), and `stop` modifies only `isPlaying`,
    `repeatFlag` and `currentName`, leaving the stored pattern reference, step
    index and step start time exactly as they were — idleness is recorded
    solely in the `isPlaying` flag. -/
theorem C9_amended (s : BuzzerState) (now : Nat) :
    (s.isPlaying = false → update s now = some (s, [])) ∧
    (stop s).1.currentPattern = s.currentPattern ∧
    (stop s).1.patternIndex = s.patternIndex ∧
    (stop s).1.noteStartTime = s.noteStartTime ∧
    (stop s).1.isPlaying = false ∧
    (stop s).1.repeatFlag = false ∧
    (stop s).1.currentName = "" :=
  ⟨fun h => update_idle s now h, rfl, rfl, rfl, rfl, rfl, rfl⟩

/-- Witness for C9 at a concrete idle state. -/
theorem C9_witness :
    initState.isPlaying = false ∧ update initState 5 = some (initState, []) :=
  ⟨rfl, (C9_amended initState 5).1 rfl⟩

end Buzzer

namespace Buzzer

/-! ### Claim theorems: the single-step `if`, the missing clamp, the missing
    bounds guard, and end-marker recognition -/

/-- Counterexample for claim C1: `update` uses a single `if`, not a loop, so a
    lone poll whose elapsed time covers two step durations advances only one
    step, while two polls hitting each boundary advance through both steps and
    finish the pattern.  Final states and emitted command multisets differ. -/
theorem C1_counterexample :
    (pollSeq exStart [200]).map (fun r => r.1.isPlaying) = some true ∧
    (pollSeq exStart [100, 200]).map (fun r => r.1.isPlaying) = some false ∧
    (pollSeq exStart [200]).map (fun r => r.2) =
      some [SinkCmd.tone 900, SinkCmd.duty 10] ∧
    (pollSeq exStart [100, 200]).map (fun r => r.2) =
      some [SinkCmd.tone 900, SinkCmd.duty 10, SinkCmd.tone 0, SinkCmd.duty 0] :=
  ⟨rfl, rfl, rfl, rfl⟩

/-- Claim C1 (corrected): a single `update` call advances at most one step —
    at every representable state (`patternIndex` holds a `uint8_t` value, so it
    is below 256) the post state is either unchanged (with nothing emitted), or
    has its step index incremented by exactly one, or reset to 0 (by the
    looping branch, or by the 255 → 0 wrap of the `uint8_t` increment).
    Polling with many small increments is therefore NOT equivalent to one poll
    with the summed elapsed time; crossing several step boundaries requires one
    poll per boundary. -/
theorem C1_amended (s : BuzzerState) (now : Nat) (s2 : BuzzerState)
    (cmds : List SinkCmd) (hidx : s.patternIndex < 256)
    (h : update s now = some (s2, cmds)) :
    (s2 = s ∧ cmds = []) ∨ s2.patternIndex = s.patternIndex + 1 ∨
      s2.patternIndex = 0 := by
  unfold update at h
  split at h
  · simp only [Option.some.injEq, Prod.mk.injEq] at h
    exact Or.inl ⟨h.1.symm, h.2.symm⟩
  · split at h
    · split at h
      · exact absurd h (by simp)
      · split at h
        · split at h
          · exact absurd h (by simp)
          · split at h
            · split at h
              · split at h
                · exact absurd h (by simp)
                · simp only [Option.some.injEq, Prod.mk.injEq] at h
                  refine Or.inr (Or.inr ?_)
                  rw [← h.1]
              · simp only [stop, Option.some.injEq, Prod.mk.injEq] at h
                refine Or.inr ?_
                have h2 := congrArg BuzzerState.patternIndex h.1
                simp only [] at h2
                omega
            · simp only [Option.some.injEq, Prod.mk.injEq] at h
              refine Or.inr ?_
              have h2 := congrArg BuzzerState.patternIndex h.1
              simp only [] at h2
              omega
        · simp only [Option.some.injEq, Prod.mk.injEq] at h
          exact Or.inl ⟨h.1.symm, h.2.symm⟩
    · simp only [Option.some.injEq, Prod.mk.injEq] at h
      exact Or.inl ⟨h.1.symm, h.2.symm⟩

/-- Witness for C1 at a concrete advancing poll. -/
theorem C1_witness :
    exStart.patternIndex < 256 ∧
    update exStart 200 =
      some (⟨some exPat, 1, 200, true, false, "ex"⟩,
            [SinkCmd.tone 900, SinkCmd.duty 10]) ∧
    (((⟨some exPat, 1, 200, true, false, "ex"⟩ : BuzzerState) = exStart ∧
        ([SinkCmd.tone 900, SinkCmd.duty 10] : List SinkCmd) = []) ∨
      (1 : Nat) = exStart.patternIndex + 1 ∨ (1 : Nat) = 0) := by
  refine ⟨by decide, rfl, ?_⟩
  have := C1_amended exStart 200 ⟨some exPat, 1, 200, true, false, "ex"⟩
    [SinkCmd.tone 900, SinkCmd.duty 10] (by decide) rfl
  simpa using this

/-- Counterexample for claim C2: with `noteStartTime = 1000`, a stale poll at
    `now = 500` does NOT leave the state unchanged — the `unsigned long`
    subtraction `millis() - noteStartTime` wraps to `2^32 - 500`, which exceeds
    the step duration, so the sequencer advances a step and emits. -/
theorem C2_counterexample :
    update ⟨some exPat, 0, 1000, true, false, "ex"⟩ 500 =
      some (⟨some exPat, 1, 500, true, false, "ex"⟩,
            [SinkCmd.tone 900, SinkCmd.duty 10]) ∧
    (500 : Nat) < 1000 :=
  ⟨rfl, by decide⟩

/-- Claim C2 (corrected): there is no defensive clamp.  When
    `now < noteStartTime`, the elapsed value is the wrapped difference
    `now % 2^32 + 2^32 - noteStartTime`; whenever that (huge) value reaches the
    current step's duration, the step advances exactly as if the duration had
    genuinely elapsed — to the `uint8_t`-wrapped index `(patternIndex + 1) %
    256`, whose note is examined and emitted. -/
theorem C2_amended (s : BuzzerState) (pat : List BuzzerNote) (now : Nat)
    (note note2 : BuzzerNote)
    (hpat : s.currentPattern = some pat) (hplay : s.isPlaying = true)
    (hcur : pat[s.patternIndex]? = some note)
    (hnext : pat[(s.patternIndex + 1) % 256]? = some note2)
    (hmark : isEndMarker note2 = false)
    (hnow : now < s.noteStartTime) (hstart : s.noteStartTime < 2 ^ 32)
    (hdur : note.duration ≤ now % 2 ^ 32 + 2 ^ 32 - s.noteStartTime) :
    update s now =
      some ({ s with patternIndex := (s.patternIndex + 1) % 256,
                     noteStartTime := now },
            playNote note2) := by
  apply update_advance s pat now note note2 hpat hplay hcur _ hnext hmark
  rw [sub32_wrap hnow hstart]
  exact hdur

/-- Witness for C2 at the concrete stale timestamp. -/
theorem C2_witness :
    (500 : Nat) < 1000 ∧
    update ⟨some exPat, 0, 1000, true, false, "ex"⟩ 500 =
      some (⟨some exPat, 1, 500, true, false, "ex"⟩, playNote ⟨900, 100, 10⟩) := by
  refine ⟨by decide, ?_⟩
  exact C2_amended ⟨some exPat, 0, 1000, true, false, "ex"⟩ exPat 500
    ⟨500, 100, 10⟩ ⟨900, 100, 10⟩ rfl rfl rfl rfl rfl (by decide) (by decide)
    (by decide)

/-- Counterexample for claim C3: on a pattern with no terminator entry at all,
    a poll past the last step's duration reaches the out-of-bounds read of
    `currentPattern[patternIndex]` — the error branch of the Option-indexed
    embedding IS reachable. -/
theorem C3_counterexample :
    update ⟨some [⟨500, 100, 10⟩], 0, 0, true, false, "m"⟩ 100 = none :=
  rfl

/-- Claim C3 (corrected): the source has no bounds guard.  Whenever the current
    step is the last entry of a pattern of at most 255 entries and its duration
    has elapsed, `update` increments the index (the `uint8_t` increment does
    not wrap below 256) and reads past the last defined step, i.e. the
    embedding returns `none` (undefined memory access in the C++ code).  For
    patterns of 256 or more entries the `uint8_t` index wraps 255 → 0 instead,
    so the bound on the pattern length is necessary. -/
theorem C3_amended (s : BuzzerState) (pat : List BuzzerNote) (now : Nat)
    (note : BuzzerNote)
    (hpat : s.currentPattern = some pat) (hplay : s.isPlaying = true)
    (hcur : pat[s.patternIndex]? = some note)
    (hlast : s.patternIndex + 1 = pat.length)
    (hlen : pat.length ≤ 255)
    (hdur : note.duration ≤ sub32 now s.noteStartTime) :
    update s now = none := by
  apply update_oob s pat now note hpat hplay hcur hdur
  have hmod : (s.patternIndex + 1) % 256 = pat.length := by omega
  rw [hmod]
  exact List.getElem?_eq_none (le_refl _)

/-- Witness for C3 at the concrete unterminated pattern. -/
theorem C3_witness :
    (100 : Nat) ≤ sub32 100 0 ∧
    update ⟨some [⟨500, 100, 10⟩], 0, 0, true, false, "m"⟩ 100 = none := by
  refine ⟨by decide, ?_⟩
  exact C3_amended ⟨some [⟨500, 100, 10⟩], 0, 0, true, false, "m"⟩
    [⟨500, 100, 10⟩] 100 ⟨500, 100, 10⟩ rfl rfl rfl rfl (by decide) (by decide)

/-- Counterexample for claim C8: a step `{0, 0, 7}` with zero frequency, zero
    duration but non-zero volume is treated as the terminator by `update` (the
    check reads only `frequency` and `duration`), stopping playback instead of
    playing it as an ordinary step. -/
theorem C8_counterexample :
    update ⟨some [⟨500, 100, 10⟩, ⟨0, 0, 7⟩, ⟨900, 100, 10⟩, ⟨0, 0, 0⟩],
            0, 0, true, false, "x"⟩ 100 =
      some (⟨some [⟨500, 100, 10⟩, ⟨0, 0, 7⟩, ⟨900, 100, 10⟩, ⟨0, 0, 0⟩],
             1, 0, false, false, ""⟩,
            [SinkCmd.tone 0, SinkCmd.duty 0]) ∧
    (7 : Nat) ≠ 0 :=
  ⟨rfl, by decide⟩

/-- Claim C8 (corrected): the terminator is recognized by
    `frequency == 0 && duration == 0` alone — the volume field is ignored, so
    when the `uint8_t`-wrapped successor index `(patternIndex + 1) % 256` holds
    a step with zero frequency and zero duration, a non-looping pattern stops,
    for EVERY volume value `v`. -/
theorem C8_amended (s : BuzzerState) (pat : List BuzzerNote) (now v : Nat)
    (note : BuzzerNote)
    (hpat : s.currentPattern = some pat) (hplay : s.isPlaying = true)
    (hrep : s.repeatFlag = false)
    (hcur : pat[s.patternIndex]? = some note)
    (hnext : pat[(s.patternIndex + 1) % 256]? = some ⟨0, 0, v⟩)
    (hdur : note.duration ≤ sub32 now s.noteStartTime) :
    update s now =
      some (stop { s with patternIndex := (s.patternIndex + 1) % 256 }) := by
  exact update_stopAtEnd s pat now note ⟨0, 0, v⟩ hpat hplay hrep hcur hdur hnext rfl

/-- Witness for C8 at the concrete volume-7 end marker. -/
theorem C8_witness :
    update ⟨some [⟨500, 100, 10⟩, ⟨0, 0, 7⟩, ⟨900, 100, 10⟩, ⟨0, 0, 0⟩],
            0, 0, true, false, "x"⟩ 100 =
      some (stop ⟨some [⟨500, 100, 10⟩, ⟨0, 0, 7⟩, ⟨900, 100, 10⟩, ⟨0, 0, 0⟩],
                  1, 0, true, false, "x"⟩) :=
  C8_amended _ _ 100 7 ⟨500, 100, 10⟩ rfl rfl rfl rfl rfl (by decide)

end Buzzer

namespace Buzzer

/-! ### Claim theorems: completion and looping -/

/-- Counterexample for claim C4: for the two-step pattern `exPat` (total step
    duration 200), a single poll at `t = 300` — cumulative elapsed time 300 —
    advances only one step, so `isActive()` is still true even though the
    cumulative elapsed time exceeds the sum of all step durations. -/
theorem C4_counterexample :
    durTotal [⟨500, 100, 10⟩, ⟨900, 100, 10⟩] = 200 ∧
    (200 : Nat) < 300 ∧
    (pollSeq exStart [300]).map (fun r => isActive r.1) = some true :=
  ⟨rfl, by decide, rfl⟩

/-- Counterexample for claim C5: looping pattern `[{500Hz,100ms}, term]`
    started at t = 0 (step 0 emitted at time 0).  The duration sum is 100, so a
    period-100 emission sequence would re-emit step 0 at time 100; instead the
    restart emission happens at the poll time 150, because `update` sets
    `noteStartTime = millis()` on the restart and no emission can occur between
    polls. -/
theorem C5_counterexample :
    playPattern initState [⟨500, 100, 10⟩, ⟨0, 0, 0⟩] "L" true 0 =
      some (⟨some [⟨500, 100, 10⟩, ⟨0, 0, 0⟩], 0, 0, true, true, "L"⟩,
            [SinkCmd.tone 500, SinkCmd.duty 10]) ∧
    pollTimes ⟨some [⟨500, 100, 10⟩, ⟨0, 0, 0⟩], 0, 0, true, true, "L"⟩ [150] =
      some (⟨some [⟨500, 100, 10⟩, ⟨0, 0, 0⟩], 0, 150, true, true, "L"⟩,
            [(150, SinkCmd.tone 500), (150, SinkCmd.duty 10)]) ∧
    durTotal [⟨500, 100, 10⟩] = 100 ∧
    (150 : Nat) ≠ 0 + 100 :=
  ⟨rfl, rfl, rfl, by decide⟩

/-! ### Helper lemmas for the multi-poll runs -/

lemma getLast?_append_some (l1 l2 : List SinkCmd) (x : SinkCmd)
    (h : l2.getLast? = some x) : (l1 ++ l2).getLast? = some x := by
  rw [List.getLast?_append, h]
  rfl

lemma getElem?_append_offset (front X : List BuzzerNote) (k : Nat) :
    (front ++ X)[front.length + k]? = X[k]? := by
  rw [List.getElem?_append_right (Nat.le_add_right _ _), Nat.add_sub_cancel_left]

lemma getElem?_append_self (front X : List BuzzerNote) :
    (front ++ X)[front.length]? = X[0]? := by
  have h := getElem?_append_offset front X 0
  simpa using h

lemma driveOK_cons {T : Nat} {n : BuzzerNote} {rest : List BuzzerNote}
    {t : Nat} {more : List Nat} (h : driveOK T (n :: rest) (t :: more) = true) :
    T + n.duration ≤ t ∧ t < 2 ^ 32 ∧ driveOK t rest more = true := by
  simp [driveOK] at h
  refine ⟨h.1.1, ?_, h.2⟩
  have h32 : (2 : Nat) ^ 32 = 4294967296 := by norm_num
  rw [h32]
  exact h.1.2

lemma driveOK_nil {T : Nat} {ts : List Nat} (h : driveOK T [] ts = true) :
    ts = [] := by
  cases ts with
  | nil => rfl
  | cons t more => simp [driveOK] at h

lemma driveOK_cons_ts {T : Nat} {n : BuzzerNote} {rest : List BuzzerNote}
    {ts : List Nat} (h : driveOK T (n :: rest) ts = true) :
    ∃ t more, ts = t :: more := by
  cases ts with
  | nil => simp [driveOK] at h
  | cons t more => exact ⟨t, more, rfl⟩

lemma emitAll_append (a b : List BuzzerNote) :
    emitAll (a ++ b) = emitAll a ++ emitAll b := by
  induction a with
  | nil => rfl
  | cons n rest ih => simp [emitAll, ih]

lemma pollSeq_append (s : BuzzerState) (ts1 ts2 : List Nat) :
    pollSeq s (ts1 ++ ts2) =
      match pollSeq s ts1 with
      | none => none
      | some (s1, c1) =>
        match pollSeq s1 ts2 with
        | none => none
        | some (s2, c2) => some (s2, c1 ++ c2) := by
  induction ts1 generalizing s with
  | nil =>
    simp only [List.nil_append, pollSeq]
    cases h : pollSeq s ts2 with
    | none => rfl
    | some r => cases r; simp
  | cons t rest ih =>
    cases hu : update s t with
    | none => simp [pollSeq, hu]
    | some r =>
      obtain ⟨s2, c⟩ := r
      simp only [List.cons_append, pollSeq, hu, List.append_eq]
      rw [ih s2]
      cases h1 : pollSeq s2 rest with
      | none => rfl
      | some r1 =>
        obtain ⟨s3, c1⟩ := r1
        cases h2 : pollSeq s3 ts2 with
        | none => simp [h2]
        | some r2 =>
          obtain ⟨s4, c2⟩ := r2
          simp [h2]

end Buzzer

namespace Buzzer

/-- Driving a playing, non-looping sequencer with one boundary-crossing poll
    per remaining step always ends with the sequencer stopped and the silence
    command as the last emission, whatever the remaining steps are.  The
    pattern must fit the `uint8_t` index (at most 255 steps before the
    terminator) so that no increment in the run wraps 255 → 0. -/
lemma runToStop (term : BuzzerNote) (name : String)
    (hterm : isEndMarker term = true) :
    ∀ (rem front : List BuzzerNote) (T : Nat) (ts : List Nat),
      rem ≠ [] → front.length + rem.length ≤ 255 →
      T < 2 ^ 32 → driveOK T rem ts = true →
      ∃ sf cf,
        pollSeq ⟨some (front ++ (rem ++ [term])), front.length, T, true, false,
                 name⟩ ts = some (sf, cf) ∧
        sf.isPlaying = false ∧ cf.getLast? = some (SinkCmd.duty 0) := by
  intro rem
  induction rem with
  | nil =>
    intro front T ts hne _ _ _
    exact absurd rfl hne
  | cons n rest ih =>
    intro front T ts _ hlen hT hdrive
    obtain ⟨t, more, rfl⟩ := driveOK_cons_ts hdrive
    obtain ⟨hle, ht32, hrest⟩ := driveOK_cons hdrive
    simp only [List.length_cons] at hlen
    have hmod : (front.length + 1) % 256 = front.length + 1 :=
      Nat.mod_eq_of_lt (by omega)
    have hcur : (front ++ ((n :: rest) ++ [term]))[front.length]? = some n := by
      rw [getElem?_append_self]
      simp
    have hdur : n.duration ≤ sub32 t T := by
      rw [sub32_eq_sub (le_trans (Nat.le_add_right T n.duration) hle) ht32]
      omega
    cases rest with
    | nil =>
      obtain rfl : more = [] := driveOK_nil hrest
      have hnext : (front ++ ([n] ++ [term]))[front.length + 1]? = some term := by
        rw [getElem?_append_offset]
        simp
      have hnextw : (front ++ ([n] ++ [term]))[(front.length + 1) % 256]? =
          some term := by
        rw [hmod]
        exact hnext
      have hupd := update_stopAtEnd
        ⟨some (front ++ ([n] ++ [term])), front.length, T, true, false, name⟩
        (front ++ ([n] ++ [term])) t n term rfl rfl rfl hcur hdur hnextw hterm
      simp only [stop] at hupd
      simp at hupd
      rw [hmod] at hupd
      refine ⟨⟨some (front ++ ([n] ++ [term])), front.length + 1, T, false,
               false, ""⟩,
              [SinkCmd.tone 0, SinkCmd.duty 0], ?_, rfl, rfl⟩
      simp [pollSeq, hupd]
    | cons n2 rest2 =>
      have hnext : (front ++ ((n :: n2 :: rest2) ++ [term]))[front.length + 1]? =
          some n2 := by
        rw [getElem?_append_offset]
        simp
      have hnextw : (front ++ ((n :: n2 :: rest2) ++
          [term]))[(front.length + 1) % 256]? = some n2 := by
        rw [hmod]
        exact hnext
      by_cases hmark : isEndMarker n2 = true
      · have hupd := update_stopAtEnd
          ⟨some (front ++ ((n :: n2 :: rest2) ++ [term])), front.length, T, true,
           false, name⟩
          (front ++ ((n :: n2 :: rest2) ++ [term])) t n n2 rfl rfl rfl hcur hdur
          hnextw hmark
        simp only [stop] at hupd
        simp at hupd
        rw [hmod] at hupd
        have hidle := pollSeq_idle
          ⟨some (front ++ (n :: n2 :: (rest2 ++ [term]))), front.length + 1, T,
           false, false, ""⟩ more rfl
        refine ⟨⟨some (front ++ ((n :: n2 :: rest2) ++ [term])),
                 front.length + 1, T, false, false, ""⟩,
                [SinkCmd.tone 0, SinkCmd.duty 0], ?_, rfl, rfl⟩
        simp [pollSeq, hupd, hidle]
      · have hmark2 : isEndMarker n2 = false := by
          simpa using hmark
        have hupd := update_advance
          ⟨some (front ++ ((n :: n2 :: rest2) ++ [term])), front.length, T, true,
           false, name⟩
          (front ++ ((n :: n2 :: rest2) ++ [term])) t n n2 rfl rfl hcur hdur
          hnextw hmark2
        simp at hupd
        rw [hmod] at hupd
        have hlen2 : (front ++ [n]).length + (n2 :: rest2).length ≤ 255 := by
          simp only [List.length_append, List.length_cons, List.length_nil]
            at hlen ⊢
          omega
        obtain ⟨sf, cf, hps, hpf, hlast⟩ :=
          ih (front ++ [n]) t more (by simp) hlen2 ht32 hrest
        rw [show (front ++ [n]) ++ ((n2 :: rest2) ++ [term]) =
              front ++ ((n :: n2 :: rest2) ++ [term]) from by simp] at hps
        rw [show (front ++ [n]).length = front.length + 1 from by simp] at hps
        simp only [List.cons_append] at hps
        refine ⟨sf, playNote n2 ++ cf, ?_, hpf, getLast?_append_some _ _ _ hlast⟩
        simp [pollSeq, hupd, hps]

/-- Claim C4 (corrected): after `start(P, false)` on a pattern `steps ++ [term]`
    with at most 255 non-terminator steps (so the `uint8_t` index never wraps
    during the run), driving the sequencer with ONE boundary-crossing poll per
    step (each poll's elapsed time at least the current step's duration) ends
    with `isActive()` false and the silence command as the sink's last received
    command; the poll that crosses into the terminator invokes `stop`
    internally and emits nothing afterwards.  A single poll advances only one
    step, so cumulative elapsed time alone (claim C4 as stated) does not
    suffice — one poll per step boundary is required; and for 256 or more
    steps the `uint8_t` index wraps back to step 0 before the terminator is
    reached. -/
theorem C4_amended (steps : List BuzzerNote) (term : BuzzerNote) (name : String)
    (anyState s0 : BuzzerState) (c0 : List SinkCmd) (t0 : Nat) (ts : List Nat)
    (hterm : isEndMarker term = true) (hne : steps ≠ [])
    (hlen : steps.length ≤ 255)
    (ht0 : t0 < 2 ^ 32) (hdrive : driveOK t0 steps ts = true)
    (hstart : playPattern anyState (steps ++ [term]) name false t0 = some (s0, c0)) :
    ∃ sf cf, pollSeq s0 ts = some (sf, cf) ∧ isActive sf = false ∧
      (c0 ++ cf).getLast? = some (SinkCmd.duty 0) := by
  cases steps with
  | nil => exact absurd rfl hne
  | cons n rest =>
    have h0 : ((n :: rest) ++ [term])[0]? = some n := by simp
    unfold playPattern at hstart
    rw [h0] at hstart
    simp only [Option.some.injEq, Prod.mk.injEq] at hstart
    obtain ⟨hs0, hc0⟩ := hstart
    obtain ⟨sf, cf, h1, h2, h3⟩ :=
      runToStop term name hterm (n :: rest) [] t0 ts (by simp)
        (by simpa using hlen) ht0 hdrive
    refine ⟨sf, cf, ?_, h2, ?_⟩
    · simp only [List.nil_append, List.length_nil] at h1
      rw [hs0] at h1
      exact h1
    · rw [← hc0]
      exact getLast?_append_some _ _ _ h3

/-- Witness for C4: the one-step pattern `[{500Hz,100ms}, term]`, one poll at
    its boundary. -/
theorem C4_witness :
    driveOK 0 [⟨500, 100, 10⟩] [100] = true ∧
    ∃ sf cf,
      pollSeq ⟨some [⟨500, 100, 10⟩, ⟨0, 0, 0⟩], 0, 0, true, false, "w"⟩ [100] =
        some (sf, cf) ∧
      isActive sf = false ∧
      ([SinkCmd.tone 500, SinkCmd.duty 10] ++ cf).getLast? =
        some (SinkCmd.duty 0) := by
  refine ⟨by decide, ?_⟩
  exact C4_amended [⟨500, 100, 10⟩] ⟨0, 0, 0⟩ "w" initState
    ⟨some [⟨500, 100, 10⟩, ⟨0, 0, 0⟩], 0, 0, true, false, "w"⟩
    [SinkCmd.tone 500, SinkCmd.duty 10] 0 [100] rfl (by simp) (by decide)
    (by decide) (by decide) rfl

end Buzzer

namespace Buzzer

/-- Unfolding one `pollSeq` step when the `update` result is known. -/
lemma pollSeq_cons_some (s s2 : BuzzerState) (t : Nat) (ts : List Nat)
    (c : List SinkCmd) (hu : update s t = some (s2, c)) :
    pollSeq s (t :: ts) =
      match pollSeq s2 ts with
      | none => none
      | some (s3, more) => some (s3, c ++ more) := by
  simp [pollSeq, hu]

/-- One boundary-aligned polling cycle of a looping sequencer: starting from
    the step at `front.length` with step start time `T`, polling exactly at the
    remaining step boundaries advances through the remaining steps, wraps at
    the end marker back to index 0 (emitting step 0 in the same call, without
    re-checking step 0's duration), and leaves the sequencer playing with step
    start time `T + durTotal rem`.  The pattern must fit the `uint8_t` index
    (at most 255 steps before the terminator) so that no increment in the
    cycle wraps 255 → 0 prematurely. -/
lemma runCycle (term first : BuzzerNote) (name : String)
    (hterm : isEndMarker term = true) :
    ∀ (rem front : List BuzzerNote) (T : Nat),
      rem ≠ [] →
      front.length + rem.length ≤ 255 →
      (∀ x ∈ rem.tail, isEndMarker x = false) →
      (front ++ (rem ++ [term]))[0]? = some first →
      T + durTotal rem < 2 ^ 32 →
      pollSeq ⟨some (front ++ (rem ++ [term])), front.length, T, true, true,
               name⟩ (boundaryTimes T rem)
        = some (⟨some (front ++ (rem ++ [term])), 0, T + durTotal rem, true,
                 true, name⟩,
                emitAll rem.tail ++ playNote first) := by
  intro rem
  induction rem with
  | nil =>
    intro front T hne _ _ _ _
    exact absurd rfl hne
  | cons n rest ih =>
    intro front T _ hlen htail hfirst hT
    have hdt : durTotal (n :: rest) = n.duration + durTotal rest := rfl
    rw [hdt] at hT
    have ht32 : T + n.duration < 2 ^ 32 := by omega
    simp only [List.length_cons] at hlen
    have hmod : (front.length + 1) % 256 = front.length + 1 :=
      Nat.mod_eq_of_lt (by omega)
    have hcur : (front ++ ((n :: rest) ++ [term]))[front.length]? = some n := by
      rw [getElem?_append_self]
      simp
    have hdur : n.duration ≤ sub32 (T + n.duration) T := by
      rw [sub32_eq_sub (Nat.le_add_right _ _) ht32]
      omega
    cases rest with
    | nil =>
      have hnext : (front ++ ([n] ++ [term]))[front.length + 1]? = some term := by
        rw [getElem?_append_offset]
        simp
      have hnextw : (front ++ ([n] ++ [term]))[(front.length + 1) % 256]? =
          some term := by
        rw [hmod]
        exact hnext
      have hupd := update_wrap
        ⟨some (front ++ ([n] ++ [term])), front.length, T, true, true, name⟩
        (front ++ ([n] ++ [term])) (T + n.duration) n term first rfl rfl rfl
        hcur hdur hnextw hterm hfirst
      simp at hupd
      simp [boundaryTimes, pollSeq, hupd, emitAll, durTotal]
    | cons n2 rest2 =>
      have hmark2 : isEndMarker n2 = false := htail n2 (by simp)
      have hnext : (front ++ ((n :: n2 :: rest2) ++ [term]))[front.length + 1]? =
          some n2 := by
        rw [getElem?_append_offset]
        simp
      have hnextw : (front ++ ((n :: n2 :: rest2) ++
          [term]))[(front.length + 1) % 256]? = some n2 := by
        rw [hmod]
        exact hnext
      have hupd := update_advance
        ⟨some (front ++ ((n :: n2 :: rest2) ++ [term])), front.length, T, true,
         true, name⟩
        (front ++ ((n :: n2 :: rest2) ++ [term])) (T + n.duration) n n2 rfl rfl
        hcur hdur hnextw hmark2
      simp at hupd
      rw [hmod] at hupd
      have hfirst2 : ((front ++ [n]) ++ ((n2 :: rest2) ++ [term]))[0]? =
          some first := by
        rw [show (front ++ [n]) ++ ((n2 :: rest2) ++ [term]) =
              front ++ ((n :: n2 :: rest2) ++ [term]) from by simp]
        exact hfirst
      have hT2 : (T + n.duration) + durTotal (n2 :: rest2) < 2 ^ 32 := by
        omega
      have hlen2 : (front ++ [n]).length + (n2 :: rest2).length ≤ 255 := by
        simp only [List.length_append, List.length_cons, List.length_nil]
          at hlen ⊢
        omega
      have hrec := ih (front ++ [n]) (T + n.duration) (by simp) hlen2
        (fun x hx => htail x (List.mem_cons_of_mem n2 hx)) hfirst2 hT2
      rw [show (front ++ [n]) ++ ((n2 :: rest2) ++ [term]) =
            front ++ ((n :: n2 :: rest2) ++ [term]) from by simp,
          show (front ++ [n]).length = front.length + 1 from by simp] at hrec
      have harith : T + n.duration + durTotal (n2 :: rest2) =
          T + durTotal (n :: n2 :: rest2) := by
        simp [durTotal]
        omega
      rw [harith] at hrec
      simp only [List.cons_append] at hrec
      simp only [List.cons_append]
      rw [show boundaryTimes T (n :: n2 :: rest2) =
            (T + n.duration) :: boundaryTimes (T + n.duration) (n2 :: rest2) from
            rfl]
      rw [pollSeq_cons_some _ _ _ _ _ hupd]
      rw [hrec]
      simp [emitAll]

end Buzzer

namespace Buzzer

/-- Claim C5 (corrected): with looping enabled, when `update` finds the step
    after the current one to be the end marker it resets `patternIndex` to 0,
    sets `noteStartTime` to the poll time, and emits step 0 in the same call —
    WITHOUT re-checking step 0's duration in that call.  Under boundary-aligned
    polling, the emitted parameters are periodic: `n` full cycles emit `n`
    copies of the pattern's step parameters (rotated by one, since step 0 was
    already emitted by `start`) and the sequencer stays active with
    `noteStartTime` advanced by `n * durTotal` — for arbitrarily many cycles
    `n`.  Real-time periodicity with period `durTotal` holds only for such
    aligned polls (see the counterexample), since each restart re-bases timing
    at the poll instant.  The pattern must have at most 255 non-terminator
    steps: with 256 or more the `uint8_t` index wraps 255 → 0 mid-cycle. -/
theorem C5_amended (first term : BuzzerNote) (rest : List BuzzerNote)
    (name : String) (T nCyc : Nat)
    (hterm : isEndMarker term = true)
    (htail : ∀ x ∈ rest, isEndMarker x = false)
    (hlen : (first :: rest).length ≤ 255)
    (hT : T + nCyc * durTotal (first :: rest) < 2 ^ 32) :
    pollSeq ⟨some ((first :: rest) ++ [term]), 0, T, true, true, name⟩
        (cycleSchedule (first :: rest) nCyc T)
      = some (⟨some ((first :: rest) ++ [term]), 0,
               T + nCyc * durTotal (first :: rest), true, true, name⟩,
              repeatCmds nCyc (emitAll (rest ++ [first]))) := by
  induction nCyc generalizing T with
  | zero =>
    simp [cycleSchedule, pollSeq, repeatCmds]
  | succ k ihN =>
    have hsucc : (k + 1) * durTotal (first :: rest) =
        k * durTotal (first :: rest) + durTotal (first :: rest) := by
      ring
    have hT1 : T + durTotal (first :: rest) < 2 ^ 32 := by
      rw [hsucc] at hT
      omega
    have hcyc := runCycle term first name hterm (first :: rest) [] T (by simp)
      (by simpa using hlen) (by simpa using htail) (by simp) hT1
    simp only [List.nil_append, List.length_nil] at hcyc
    have hT2 : (T + durTotal (first :: rest)) + k * durTotal (first :: rest) <
        2 ^ 32 := by
      rw [hsucc] at hT
      omega
    have hrec := ihN (T + durTotal (first :: rest)) hT2
    have harith : T + durTotal (first :: rest) + k * durTotal (first :: rest) =
        T + (k + 1) * durTotal (first :: rest) := by
      ring
    rw [harith] at hrec
    simp only [List.cons_append] at hrec
    rw [show cycleSchedule (first :: rest) (k + 1) T =
          boundaryTimes T (first :: rest) ++
            cycleSchedule (first :: rest) k (T + durTotal (first :: rest)) from
          rfl,
        pollSeq_append, hcyc]
    simp [hrec, repeatCmds, emitAll_append, emitAll]

/-- Witness for C5: two full aligned cycles of the looping one-step pattern. -/
theorem C5_witness :
    (0 : Nat) + 2 * durTotal [⟨500, 100, 10⟩] < 2 ^ 32 ∧
    pollSeq ⟨some [⟨500, 100, 10⟩, ⟨0, 0, 0⟩], 0, 0, true, true, "L"⟩
        (cycleSchedule [⟨500, 100, 10⟩] 2 0)
      = some (⟨some [⟨500, 100, 10⟩, ⟨0, 0, 0⟩], 0,
               0 + 2 * durTotal [⟨500, 100, 10⟩], true, true, "L"⟩,
              repeatCmds 2 (emitAll ([] ++ [⟨500, 100, 10⟩]))) := by
  refine ⟨by decide, ?_⟩
  exact C5_amended ⟨500, 100, 10⟩ ⟨0, 0, 0⟩ [] "L" 0 2 rfl (by simp) (by decide)
    (by decide)

end Buzzer
